import Mathlib

/-!
# Verification of the flat-file key-value store (`db.go`)

A shallow embedding of the Go package `db`: the pure codec
(`parseData` with `bufio.Scanner` line splitting, and `Close`'s
per-entry serialization) and the `FileDB` store operations
(`Create`, `Read`, `Update`, `Delete`, `Close`), with Go strings
modelled as `List Char` and the Go `map[string]string` modelled as an
association list whose operations obey Go map semantics on
duplicate-free lists.

File effects are modelled by oracles: `Close` takes a `w : Nat → Bool`
oracle giving the success of the i-th `file.Write` call, and a pair
`fcOk : Bool`, `fcCode : Nat` standing for the result of the final
`file.Close()` (whose raw error the Go code returns unmapped).
-/

namespace DBSpec

/-- A Go string, modelled as its list of characters. -/
abbrev Str := List Char

/-- The sentinel error values declared at the top of `db.go`. -/
inductive DBError where
  | duplicatedKey
  | wrongFormat
  | keyNotFound
  | openingFile
  | savingToFile
  | closedDB
deriving DecidableEq

/-- An error returned by `Close`: either one of the package's sentinel
errors, or the raw operating-system error that `db.file.Close()`
produces (Go returns the latter unmapped on the last line of `Close`).
The `Nat` code stands for an arbitrary OS error value. -/
inductive CloseErr where
  | dbe (e : DBError)
  | osErr (code : Nat)
deriving DecidableEq

/-- Membership of the character class `[a-zA-Z0-9_-]` of the two
regular expressions `keyFormat` and `lineFormat` in `db.go`. -/
def isKeyChar (c : Char) : Bool :=
  decide (('a' ≤ c ∧ c ≤ 'z') ∨ ('A' ≤ c ∧ c ≤ 'Z') ∨
          ('0' ≤ c ∧ c ≤ '9') ∨ c = '_' ∨ c = '-')

/-- `keyFormat.MatchString`: the anchored regular expression
`^[a-zA-Z0-9_-]*$` holds exactly when every character is in the class
(the empty string matches). -/
def keyFormatMatch (s : Str) : Bool :=
  s.all isKeyChar

/-- `lineFormat.MatchString`: the anchored regular expression
`^[a-zA-Z0-9_-]*:.*$`. Since `:` is not in the key class, a string
matches exactly when it has a `:`, everything before the first `:` is
in the key class, and everything after it is not a newline (`.` in Go
regexps does not match `\n`). -/
def lineFormatMatch : Str → Bool
  | [] => false
  | c :: rest =>
    if c = ':' then rest.all (fun d => decide (d ≠ '\n'))
    else isKeyChar c && lineFormatMatch rest

/-- The split `line[:strings.Index(line, ":")]`,
`line[strings.Index(line, ":")+1:]` in `parseData`: the part before
the first `:` and the part after it. -/
def splitAtColon : Str → Str × Str
  | [] => ([], [])
  | c :: rest =>
    if c = ':' then ([], rest)
    else ((splitAtColon rest).1.cons c, (splitAtColon rest).2)

/-- `strings.TrimSuffix(s.Text(), "\n")`: remove one trailing newline
if present (a no-op on scanner output, kept for fidelity). -/
def trimSuffixNl (l : Str) : Str :=
  if l.getLast? = some '\n' then l.dropLast else l

/-- `dropCR` inside `bufio.ScanLines`: remove one trailing carriage
return if present. -/
def dropCR (l : Str) : Str :=
  if l.getLast? = some '\r' then l.dropLast else l

/-- Raw split of a character sequence at every `'\n'`; always returns
at least one (possibly empty) piece. -/
def splitNl : Str → List Str
  | [] => [[]]
  | c :: rest =>
    if c = '\n' then [] :: splitNl rest
    else
      match splitNl rest with
      | [] => [[c]]
      | l :: ls => (c :: l) :: ls

/-- The sequence of tokens produced by `bufio.Scanner` with its default
`ScanLines` split function: the text is split at newlines, a final
newline produces no empty trailing token, empty input produces no
token, and each token loses one trailing carriage return. -/
def scanLines (s : Str) : List Str :=
  if s = [] then []
  else
    (if s.getLast? = some '\n' then (splitNl s).dropLast
     else splitNl s).map dropCR

/-- The in-memory mapping `map[string]string`, as an association list.
All reachable stores keep keys pairwise distinct, matching a Go map. -/
abbrev Map := List (Str × Str)

/-- Go map read `v, ok := d[key]` (first matching entry). -/
def mget : Map → Str → Option Str
  | [], _ => none
  | p :: rest, k => if p.1 = k then some p.2 else mget rest k

/-- Go map write `d[key] = v`: replace the entry in place if the key is
present, otherwise add a new entry. -/
def mset : Map → Str → Str → Map
  | [], k, v => [(k, v)]
  | p :: rest, k, v => if p.1 = k then (k, v) :: rest else p :: mset rest k v

/-- Go map removal `delete(d, key)`. -/
def mdel : Map → Str → Map
  | [], _ => []
  | p :: rest, k => if p.1 = k then rest else p :: mdel rest k

/-- The loop body of `parseData` over the scanner's tokens: each line
must match `lineFormat`, its first-colon split is written into the
accumulating map (later lines overwrite earlier ones), and the first
failing line aborts with `ErrWrongFormat` and an empty map. -/
def parseLines : Map → List Str → Map × Option DBError
  | d, [] => (d, none)
  | d, l :: rest =>
    if lineFormatMatch (trimSuffixNl l) then
      parseLines
        (mset d (splitAtColon (trimSuffixNl l)).1
                (splitAtColon (trimSuffixNl l)).2) rest
    else ([], some .wrongFormat)

/-- `parseData` of `db.go`: scan the input into lines and run the
parsing loop starting from the empty map. The second component is the
returned error (`none` on success). -/
def parseData (s : Str) : Map × Option DBError :=
  parseLines [] (scanLines s)

/-- The store state of `FileDB`: the in-memory mapping and the
closed-flag (the locks serialize access and carry no state of their
own; the file handle is modelled by the oracles passed to `Close`). -/
structure FileDB where
  data : Map
  closed : Bool
deriving DecidableEq

/-- `isClosed` of `db.go`: `ErrClosedDB` when the closed-flag is set. -/
def isClosed (db : FileDB) : Option DBError :=
  if db.closed then some .closedDB else none

/-- `Create` of `db.go`: closed check, then key-format check, then
duplicate check, then insertion. Returns the error and the new state. -/
def Create (db : FileDB) (key val : Str) : Option DBError × FileDB :=
  match isClosed db with
  | some e => (some e, db)
  | none =>
    if !keyFormatMatch key then (some .wrongFormat, db)
    else if (mget db.data key).isSome then (some .duplicatedKey, db)
    else (none, { db with data := mset db.data key val })

/-- `Read` of `db.go`: closed check, then lookup; returns `("", err)`
on failure and `(v, nil)` on success. `Read` never mutates the state. -/
def Read (db : FileDB) (key : Str) : Str × Option DBError :=
  match isClosed db with
  | some e => ([], some e)
  | none =>
    match mget db.data key with
    | none => ([], some .keyNotFound)
    | some v => (v, none)

/-- `Update` of `db.go`: closed check, then presence check, then
overwrite. No key-format re-validation. -/
def Update (db : FileDB) (key val : Str) : Option DBError × FileDB :=
  match isClosed db with
  | some e => (some e, db)
  | none =>
    match mget db.data key with
    | none => (some .keyNotFound, db)
    | some _ => (none, { db with data := mset db.data key val })

/-- `Delete` of `db.go`: closed check, then presence check, then
removal; returns the value that was stored. -/
def Delete (db : FileDB) (key : Str) : (Str × Option DBError) × FileDB :=
  match isClosed db with
  | some e => (([], some e), db)
  | none =>
    match mget db.data key with
    | none => (([], some .keyNotFound), db)
    | some v => ((v, none), { db with data := mdel db.data key })

/-- One serialized entry, as built in `Close`'s loop:
`key` + `":"` + `value` + `"\n"`. -/
def encodeEntry (p : Str × Str) : Str :=
  p.1 ++ ':' :: p.2 ++ ['\n']

/-- The whole text `Close` writes: the serialized entries one after the
other, in the order the mapping is iterated (Go map iteration order is
arbitrary, so theorems quantify over the entry list). -/
def encodeEntries : Map → Str
  | [] => []
  | p :: rest => encodeEntry p ++ encodeEntries rest

/-- Whether every `file.Write` call of `Close`'s loop succeeds, given
the oracle `w` for the success of the i-th write, starting at index
`i`. The Go loop stops at the first failed write, so it fails exactly
when this is `false`. -/
def writesOk : Map → (Nat → Bool) → Nat → Bool
  | [], _, _ => true
  | _ :: rest, w, i => w i && writesOk rest w (i + 1)

/-- `Close` of `db.go`: closed check; then the closed-flag is set
(before any file access); then the entries are written, a failed write
returning `ErrSavingToFile`; finally `db.file.Close()`'s own result is
returned unmapped (`none` if it succeeds, `osErr fcCode` if not). The
mapping itself is never modified. -/
def Close (db : FileDB) (w : Nat → Bool) (fcOk : Bool) (fcCode : Nat) :
    Option CloseErr × FileDB :=
  match isClosed db with
  | some e => (some (.dbe e), db)
  | none =>
    let db' : FileDB := { db with closed := true }
    if writesOk db.data w 0 then
      (if fcOk then none else some (.osErr fcCode), db')
    else (some (.dbe .savingToFile), db')

/-- Reference decoder following the claimed reading of the spec: split
into lines; every NON-EMPTY line must match the line format and empty
lines are tolerated and skipped; on success the mapping is built from
the non-empty lines, last write winning. (Compared against `parseData`,
which is the source's behaviour.) -/
def refDecode (s : Str) : Map × Option DBError :=
  let ls := scanLines s
  if ls.all (fun l => l.isEmpty || lineFormatMatch l) then
    ((ls.filter (fun l => !l.isEmpty)).foldl
      (fun d l => mset d (splitAtColon l).1 (splitAtColon l).2) [], none)
  else ([], some .wrongFormat)

/-- Reference decoder with the amended empty-line rule: EVERY line of
the scanner output (empty lines included) must match the line format;
any failing line, so in particular an empty line, fails the whole
decode with the format error and an empty mapping. -/
def refDecodeAmended (s : Str) : Map × Option DBError :=
  let ls := scanLines s
  if ls.all lineFormatMatch then
    (ls.foldl (fun d l => mset d (splitAtColon l).1 (splitAtColon l).2) [],
     none)
  else ([], some .wrongFormat)

/-! ## Association-list lemmas: the Go map laws -/

theorem mget_mset_self : ∀ (m : Map) (k v : Str), mget (mset m k v) k = some v
  | [], k, v => by simp [mset, mget]
  | p :: rest, k, v => by
    by_cases h : p.1 = k
    · simp [mset, mget, h]
    · simp [mset, mget, h, mget_mset_self rest k v]

theorem mget_mset_ne : ∀ (m : Map) (k v k' : Str), k' ≠ k →
    mget (mset m k v) k' = mget m k'
  | [], k, v, k', hne => by simp [mset, mget, Ne.symm hne]
  | p :: rest, k, v, k', hne => by
    by_cases h : p.1 = k
    · simp [mset, mget, h, Ne.symm hne]
    · by_cases h' : p.1 = k'
      · simp [mset, mget, h, h', hne]
      · simp [mset, mget, h, h', hne, mget_mset_ne rest k v k' hne]

theorem mem_mset : ∀ (m : Map) (k v : Str) (p : Str × Str),
    p ∈ mset m k v → p = (k, v) ∨ p ∈ m
  | [], k, v, p, hp => by
    simp [mset] at hp
    exact Or.inl hp
  | q :: rest, k, v, p, hp => by
    by_cases h : q.1 = k
    · rw [mset, if_pos h] at hp
      rcases List.mem_cons.mp hp with h1 | h2
      · exact Or.inl h1
      · exact Or.inr (List.mem_cons_of_mem q h2)
    · rw [mset, if_neg h] at hp
      rcases List.mem_cons.mp hp with h1 | h2
      · exact Or.inr (h1 ▸ List.mem_cons_self q rest)
      · rcases mem_mset rest k v p h2 with h3 | h4
        · exact Or.inl h3
        · exact Or.inr (List.mem_cons_of_mem q h4)

theorem mget_some_mem : ∀ (m : Map) (k v : Str), mget m k = some v → (k, v) ∈ m
  | [], k, v, h => by simp [mget] at h
  | p :: rest, k, v, h => by
    by_cases hk : p.1 = k
    · rw [mget, if_pos hk] at h
      have : p = (k, v) := Prod.ext hk (Option.some_injective _ h)
      exact this ▸ List.mem_cons_self p rest
    · rw [mget, if_neg hk] at h
      exact List.mem_cons_of_mem p (mget_some_mem rest k v h)

theorem mget_eq_none_of_not_mem : ∀ (m : Map) (k : Str),
    k ∉ m.map Prod.fst → mget m k = none
  | [], k, _ => by simp [mget]
  | p :: rest, k, h => by
    have h1 : ¬ p.1 = k := fun hh => h (by simp [hh.symm])
    have h2 : k ∉ rest.map Prod.fst := fun hh => h (by simp [hh])
    simp [mget, h1, mget_eq_none_of_not_mem rest k h2]

theorem mget_mdel_ne : ∀ (m : Map) (k k' : Str), k' ≠ k →
    mget (mdel m k) k' = mget m k'
  | [], k, k', _ => by simp [mdel]
  | p :: rest, k, k', hne => by
    by_cases h : p.1 = k
    · simp [mdel, mget, h, Ne.symm hne]
    · by_cases h' : p.1 = k'
      · simp [mdel, mget, h, h', hne]
      · simp [mdel, mget, h, h', hne, mget_mdel_ne rest k k' hne]

theorem mget_mdel_self : ∀ (m : Map) (k : Str),
    (m.map Prod.fst).Nodup → mget (mdel m k) k = none
  | [], k, _ => by simp [mdel, mget]
  | p :: rest, k, hnd => by
    rw [List.map_cons, List.nodup_cons] at hnd
    by_cases h : p.1 = k
    · rw [mdel, if_pos h]
      exact mget_eq_none_of_not_mem rest k (h ▸ hnd.1)
    · simp [mdel, mget, h, mget_mdel_self rest k hnd.2]

theorem mem_mdel : ∀ (m : Map) (k : Str) (p : Str × Str), p ∈ mdel m k → p ∈ m
  | [], k, p, hp => by simp [mdel] at hp
  | q :: rest, k, p, hp => by
    by_cases h : q.1 = k
    · rw [mdel, if_pos h] at hp
      exact List.mem_cons_of_mem q hp
    · rw [mdel, if_neg h] at hp
      rcases List.mem_cons.mp hp with h1 | h2
      · exact h1 ▸ List.mem_cons_self q rest
      · exact List.mem_cons_of_mem q (mem_mdel rest k p h2)

theorem foldl_mset_mget : ∀ (l : Map) (d : Map) (k : Str),
    (l.map Prod.fst).Nodup →
    mget (l.foldl (fun d p => mset d p.1 p.2) d) k =
      if mget l k = none then mget d k else mget l k
  | [], d, k, _ => by simp [mget]
  | p :: rest, d, k, hnd => by
    rw [List.map_cons, List.nodup_cons] at hnd
    rw [List.foldl_cons, foldl_mset_mget rest (mset d p.1 p.2) k hnd.2]
    by_cases h : p.1 = k
    · have hrest : mget rest k = none :=
        mget_eq_none_of_not_mem rest k (h ▸ hnd.1)
      simp [hrest, mget, h, mget_mset_self]
    · have hmne : mget (mset d p.1 p.2) k = mget d k :=
        mget_mset_ne d p.1 p.2 k (fun hh => h hh.symm)
      simp [mget, h, hmne]

/-! ## Key- and line-format lemmas -/

theorem isKeyChar_ne_colon {c : Char} (h : isKeyChar c = true) : c ≠ ':' := by
  intro hc
  subst hc
  exact absurd h (by decide)

theorem isKeyChar_ne_nl {c : Char} (h : isKeyChar c = true) : c ≠ '\n' := by
  intro hc
  subst hc
  exact absurd h (by decide)

theorem nl_not_mem_of_keyFormat {k : Str} (h : keyFormatMatch k = true) :
    '\n' ∉ k := by
  intro hm
  exact isKeyChar_ne_nl (List.all_eq_true.mp h _ hm) rfl

theorem key_valid_of_lineFormat : ∀ {l : Str}, lineFormatMatch l = true →
    keyFormatMatch (splitAtColon l).1 = true := by
  intro l
  induction l with
  | nil => intro h; exact absurd h (by simp [lineFormatMatch])
  | cons c rest ih =>
    intro h
    by_cases hc : c = ':'
    · simp [splitAtColon, hc, keyFormatMatch]
    · rw [lineFormatMatch, if_neg hc, Bool.and_eq_true] at h
      rw [splitAtColon, if_neg hc]
      simpa [keyFormatMatch, h.1] using ih h.2

theorem lineFormatMatch_encode {k v : Str} (hk : keyFormatMatch k = true)
    (hv : '\n' ∉ v) : lineFormatMatch (k ++ ':' :: v) = true := by
  induction k with
  | nil =>
    simp only [List.nil_append, lineFormatMatch, if_pos rfl]
    exact List.all_eq_true.mpr fun d hd => decide_eq_true fun hh => hv (hh ▸ hd)
  | cons c k' ih =>
    rw [keyFormatMatch, List.all_cons, Bool.and_eq_true] at hk
    rw [List.cons_append, lineFormatMatch, if_neg (isKeyChar_ne_colon hk.1),
      Bool.and_eq_true]
    exact ⟨hk.1, ih hk.2⟩

theorem splitAtColon_encode {k : Str} (v : Str) (hk : keyFormatMatch k = true) :
    splitAtColon (k ++ ':' :: v) = (k, v) := by
  induction k with
  | nil => simp [splitAtColon]
  | cons c k' ih =>
    rw [keyFormatMatch, List.all_cons, Bool.and_eq_true] at hk
    rw [List.cons_append, splitAtColon, if_neg (isKeyChar_ne_colon hk.1),
      ih hk.2]

theorem nl_not_mem_encodeLine {k v : Str} (hk : keyFormatMatch k = true)
    (hv : '\n' ∉ v) : '\n' ∉ k ++ ':' :: v := by
  intro hm
  rcases List.mem_append.mp hm with h1 | h2
  · exact nl_not_mem_of_keyFormat hk h1
  · rcases List.mem_cons.mp h2 with h3 | h4
    · exact absurd h3 (by decide)
    · exact hv h4

theorem getLast?_encodeLine_ne_cr {v : Str} (k : Str)
    (hv : v.getLast? ≠ some '\r') : (k ++ ':' :: v).getLast? ≠ some '\r' := by
  rw [List.getLast?_append_cons]
  cases v with
  | nil => decide
  | cons x xs => rw [List.getLast?_cons_cons]; exact hv

/-! ## Scanner lemmas (`bufio.ScanLines`) -/

theorem splitNl_ne_nil : ∀ (s : Str), splitNl s ≠ []
  | [] => by simp [splitNl]
  | c :: rest => by
    by_cases h : c = '\n'
    · simp [splitNl, h]
    · rw [splitNl, if_neg h]
      cases hs : splitNl rest <;> simp

theorem nl_not_mem_splitNl : ∀ (s : Str) (l : Str), l ∈ splitNl s → '\n' ∉ l
  | [], l, hl => by
    simp [splitNl] at hl
    simp [hl]
  | c :: rest, l, hl => by
    by_cases h : c = '\n'
    · rw [splitNl, if_pos h] at hl
      rcases List.mem_cons.mp hl with h1 | h2
      · simp [h1]
      · exact nl_not_mem_splitNl rest l h2
    · rw [splitNl, if_neg h] at hl
      cases hs : splitNl rest with
      | nil => exact absurd hs (splitNl_ne_nil rest)
      | cons x xs =>
        rw [hs] at hl
        rcases List.mem_cons.mp hl with h1 | h2
        · subst h1
          intro hm
          rcases List.mem_cons.mp hm with h3 | h4
          · exact h h3.symm
          · exact nl_not_mem_splitNl rest x (hs ▸ List.mem_cons_self x xs) h4
        · exact nl_not_mem_splitNl rest l (hs ▸ List.mem_cons_of_mem x h2)

theorem nl_not_mem_scanLines (s l : Str) (hl : l ∈ scanLines s) : '\n' ∉ l := by
  rw [scanLines] at hl
  split at hl
  · simp at hl
  · rcases List.mem_map.mp hl with ⟨x, hx, hdx⟩
    have hxs : x ∈ splitNl s := by
      split at hx
      · exact (List.dropLast_sublist (splitNl s)).subset hx
      · exact hx
    intro hm
    apply nl_not_mem_splitNl s x hxs
    subst hdx
    unfold dropCR at hm
    split at hm
    · exact (List.dropLast_sublist x).subset hm
    · exact hm

theorem trimSuffixNl_of_not_nl {l : Str} (h : '\n' ∉ l) : trimSuffixNl l = l := by
  rw [trimSuffixNl, if_neg]
  intro hh
  rcases List.mem_getLast?_eq_getLast (Option.mem_def.mpr hh) with ⟨hne, heq⟩
  exact h (by rw [heq]; exact List.getLast_mem hne)

theorem dropCR_of_ne_cr {l : Str} (h : l.getLast? ≠ some '\r') : dropCR l = l := by
  rw [dropCR, if_neg h]

theorem splitNl_append_nl : ∀ (a s : Str), '\n' ∉ a →
    splitNl (a ++ '\n' :: s) = a :: splitNl s
  | [], s, _ => by simp [splitNl]
  | c :: a', s, h => by
    have hc : ¬ c = '\n' := fun hh => h (hh ▸ List.mem_cons_self c a')
    have ih := splitNl_append_nl a' s fun hm => h (List.mem_cons_of_mem c hm)
    rw [List.cons_append, splitNl, if_neg hc, ih]

theorem scanLines_append_nl (a s : Str) (h : '\n' ∉ a) :
    scanLines (a ++ '\n' :: s) = dropCR a :: scanLines s := by
  have hne : a ++ '\n' :: s ≠ [] := by simp
  have hsp := splitNl_append_nl a s h
  have hlast : (a ++ '\n' :: s).getLast? = ('\n' :: s).getLast? :=
    List.getLast?_append_cons a '\n' s
  cases s with
  | nil =>
    rw [scanLines, if_neg hne, hsp, hlast]
    simp [splitNl, scanLines]
  | cons c s' =>
    have hne' : c :: s' ≠ [] := by simp
    rw [scanLines, if_neg hne, hsp, hlast, List.getLast?_cons_cons,
      scanLines, if_neg hne']
    cases hs : splitNl (c :: s') with
    | nil => exact absurd hs (splitNl_ne_nil (c :: s'))
    | cons x xs =>
      by_cases hcond : (c :: s').getLast? = some '\n'
      · rw [if_pos hcond, if_pos hcond]
        simp
      · rw [if_neg hcond, if_neg hcond]
        simp

/-! ## Parsing-layer lemmas -/

theorem parseLines_eq_check : ∀ (ls : List Str) (d : Map),
    (∀ l ∈ ls, '\n' ∉ l) →
    parseLines d ls =
      if ls.all lineFormatMatch then
        (ls.foldl (fun d l => mset d (splitAtColon l).1 (splitAtColon l).2) d,
         none)
      else ([], some .wrongFormat)
  | [], d, _ => by simp [parseLines]
  | l :: rest, d, h => by
    have htrim : trimSuffixNl l = l :=
      trimSuffixNl_of_not_nl (h l (List.mem_cons_self l rest))
    have ih := parseLines_eq_check rest
      (mset d (splitAtColon l).1 (splitAtColon l).2)
      fun x hx => h x (List.mem_cons_of_mem l hx)
    by_cases hm : lineFormatMatch l = true
    · rw [parseLines, htrim, if_pos hm, ih, List.all_cons, hm, Bool.true_and,
        List.foldl_cons]
    · rw [parseLines, htrim, if_neg hm, List.all_cons,
        Bool.eq_false_iff.mpr hm, Bool.false_and]
      simp

theorem parseLines_validKeys : ∀ (ls : List Str) (d m : Map),
    (∀ p ∈ d, keyFormatMatch p.1 = true) →
    parseLines d ls = (m, none) →
    ∀ p ∈ m, keyFormatMatch p.1 = true
  | [], d, m, hd, heq => by
    rw [parseLines] at heq
    exact (Prod.mk.injEq d none m none ▸ heq).1 ▸ hd
  | l :: rest, d, m, hd, heq => by
    by_cases hm : lineFormatMatch (trimSuffixNl l) = true
    · rw [parseLines, if_pos hm] at heq
      apply parseLines_validKeys rest
        (mset d (splitAtColon (trimSuffixNl l)).1
                (splitAtColon (trimSuffixNl l)).2) m _ heq
      intro p hp
      rcases mem_mset d _ _ p hp with h1 | h2
      · rw [h1]
        exact key_valid_of_lineFormat hm
      · exact hd p h2
    · rw [parseLines, if_neg hm] at heq
      exact absurd (Prod.mk.injEq _ _ _ _ ▸ heq).2 (by simp)

theorem parseLines_scanLines_encode : ∀ (l : Map) (d : Map),
    (∀ p ∈ l, keyFormatMatch p.1 = true ∧ '\n' ∉ p.2 ∧
      p.2.getLast? ≠ some '\r') →
    parseLines d (scanLines (encodeEntries l)) =
      (l.foldl (fun d p => mset d p.1 p.2) d, none)
  | [], d, _ => by simp [encodeEntries, scanLines, parseLines]
  | p :: rest, d, h => by
    obtain ⟨hk, hv, hr⟩ := h p (List.mem_cons_self p rest)
    have hline_nl : '\n' ∉ p.1 ++ ':' :: p.2 := nl_not_mem_encodeLine hk hv
    have henc : encodeEntries (p :: rest) =
        (p.1 ++ ':' :: p.2) ++ '\n' :: encodeEntries rest := by
      simp [encodeEntries, encodeEntry]
    rw [henc, scanLines_append_nl _ _ hline_nl,
      dropCR_of_ne_cr (getLast?_encodeLine_ne_cr p.1 hr), parseLines,
      trimSuffixNl_of_not_nl hline_nl, if_pos (lineFormatMatch_encode hk hv),
      splitAtColon_encode p.2 hk]
    rw [parseLines_scanLines_encode rest (mset d p.1 p.2)
      fun q hq => h q (List.mem_cons_of_mem p hq), List.foldl_cons]

/-! ## Closed-store helpers -/

theorem Create_of_closed (db : FileDB) (k v : Str) (h : db.closed = true) :
    Create db k v = (some .closedDB, db) := by
  rw [Create, isClosed, if_pos h]

theorem Read_of_closed (db : FileDB) (k : Str) (h : db.closed = true) :
    Read db k = ([], some .closedDB) := by
  rw [Read, isClosed, if_pos h]

theorem Update_of_closed (db : FileDB) (k v : Str) (h : db.closed = true) :
    Update db k v = (some .closedDB, db) := by
  rw [Update, isClosed, if_pos h]

theorem Delete_of_closed (db : FileDB) (k : Str) (h : db.closed = true) :
    Delete db k = (([], some .closedDB), db) := by
  rw [Delete, isClosed, if_pos h]

theorem Close_of_closed (db : FileDB) (w : Nat → Bool) (fcOk : Bool)
    (fcCode : Nat) (h : db.closed = true) :
    Close db w fcOk fcCode = (some (.dbe .closedDB), db) := by
  rw [Close, isClosed, if_pos h]

theorem Close_state (db : FileDB) (w : Nat → Bool) (fcOk : Bool) (fcCode : Nat)
    (h : db.closed = false) :
    (Close db w fcOk fcCode).2 = { db with closed := true } := by
  rw [Close, isClosed, if_neg (by rw [h]; exact Bool.false_ne_true)]
  by_cases hw : writesOk db.data w 0 = true
  · rw [if_pos hw]
  · rw [if_neg hw]

theorem Create_data_cases (db : FileDB) (k v : Str) :
    (Create db k v).2.data = db.data ∨
    ((Create db k v).2.data = mset db.data k v ∧ keyFormatMatch k = true) := by
  rw [Create]
  split
  · exact Or.inl rfl
  · split
    next hk => exact Or.inl rfl
    next hk =>
      split
      · exact Or.inl rfl
      · exact Or.inr ⟨rfl, by simpa using hk⟩

theorem Update_data_cases (db : FileDB) (k v : Str) :
    (Update db k v).2.data = db.data ∨
    ((Update db k v).2.data = mset db.data k v ∧
      ∃ u, mget db.data k = some u) := by
  rw [Update]
  split
  · exact Or.inl rfl
  · split
    next => exact Or.inl rfl
    next u hu => exact Or.inr ⟨rfl, u, hu⟩

theorem Delete_data_cases (db : FileDB) (k : Str) :
    (Delete db k).2.data = db.data ∨ (Delete db k).2.data = mdel db.data k := by
  rw [Delete]
  split
  · exact Or.inl rfl
  · split
    next => exact Or.inl rfl
    next => exact Or.inr rfl

theorem Close_data (db : FileDB) (w : Nat → Bool) (fcOk : Bool) (fcCode : Nat) :
    (Close db w fcOk fcCode).2.data = db.data := by
  cases hcl : db.closed with
  | true => rw [Close_of_closed db w fcOk fcCode hcl]
  | false => rw [Close_state db w fcOk fcCode hcl]

/-! ## The claims -/

/-- C1 (counterexample): the round-trip claim fails as stated. The key
`"k"` is format-valid and the value `"\r"` contains no newline, yet
decoding the encoding of the mapping `{"k" ↦ "\r"}` succeeds with the
value `""`: `bufio.ScanLines` strips the trailing carriage return, so
the decoded association differs from the encoded one. -/
theorem C1_counterexample :
    keyFormatMatch ['k'] = true ∧ '\n' ∉ (['\r'] : Str) ∧
    (parseData (encodeEntries [(['k'], ['\r'])])).2 = none ∧
    mget (parseData (encodeEntries [(['k'], ['\r'])])).1 ['k'] = some [] ∧
    some ([] : Str) ≠ some ['\r'] := by
  decide

/-- C1 (amended): for every mapping with format-valid keys whose
values contain no newline AND do not end in a carriage return, decoding
the text `Close` serializes reproduces exactly the key-to-value
associations, whatever order the entries were emitted in (the entry
list is arbitrary). -/
theorem C1_round_trip (l : Map)
    (hnd : (l.map Prod.fst).Nodup)
    (hval : ∀ p ∈ l, keyFormatMatch p.1 = true ∧ '\n' ∉ p.2 ∧
      p.2.getLast? ≠ some '\r') :
    (parseData (encodeEntries l)).2 = none ∧
    ∀ k, mget (parseData (encodeEntries l)).1 k = mget l k := by
  rw [parseData, parseLines_scanLines_encode l [] hval]
  refine ⟨rfl, fun k => ?_⟩
  rw [foldl_mset_mget l [] k hnd]
  by_cases hk : mget l k = none
  · rw [if_pos hk, hk, mget]
  · rw [if_neg hk]

/-- C1 witness: the round-trip theorem at the concrete two-entry
mapping `{"k" ↦ ":v", "" ↦ "x"}` (a value containing the separator and
an empty key). -/
theorem C1_round_trip_witness :
    (([(['k'], [':', 'v']), ([], ['x'])] : Map).map Prod.fst).Nodup ∧
    ((parseData (encodeEntries [(['k'], [':', 'v']), ([], ['x'])])).2 = none ∧
     ∀ k, mget (parseData
        (encodeEntries [(['k'], [':', 'v']), ([], ['x'])])).1 k =
      mget [(['k'], [':', 'v']), ([], ['x'])] k) :=
  ⟨by decide, C1_round_trip [(['k'], [':', 'v']), ([], ['x'])]
    (by decide) (by decide)⟩

/-- C2: after a successful `Close`, every operation — `Create`, `Read`,
`Update`, `Delete`, and a second `Close` — fails with the `Closed`
error for every argument, and none of them changes the store state. -/
theorem C2_closed_store_inert (db : FileDB) (w : Nat → Bool) (fcOk : Bool)
    (fcCode : Nat) (hsucc : (Close db w fcOk fcCode).1 = none) :
    ∀ (k v : Str) (w' : Nat → Bool) (fcOk' : Bool) (fcCode' : Nat),
      Create (Close db w fcOk fcCode).2 k v =
        (some .closedDB, (Close db w fcOk fcCode).2) ∧
      Read (Close db w fcOk fcCode).2 k = ([], some .closedDB) ∧
      Update (Close db w fcOk fcCode).2 k v =
        (some .closedDB, (Close db w fcOk fcCode).2) ∧
      Delete (Close db w fcOk fcCode).2 k =
        (([], some .closedDB), (Close db w fcOk fcCode).2) ∧
      Close (Close db w fcOk fcCode).2 w' fcOk' fcCode' =
        (some (.dbe .closedDB), (Close db w fcOk fcCode).2) := by
  have hopen : db.closed = false := by
    cases hcl : db.closed with
    | false => rfl
    | true =>
      rw [Close_of_closed db w fcOk fcCode hcl] at hsucc
      exact absurd hsucc (by simp)
  have hc : ((Close db w fcOk fcCode).2).closed = true := by
    rw [Close_state db w fcOk fcCode hopen]
  intro k v w' fcOk' fcCode'
  exact ⟨Create_of_closed _ k v hc, Read_of_closed _ k hc,
    Update_of_closed _ k v hc, Delete_of_closed _ k hc,
    Close_of_closed _ w' fcOk' fcCode' hc⟩

/-- C2 witness: a fresh empty store is closed successfully, then every
operation on it fails with the `Closed` error. -/
theorem C2_closed_store_inert_witness :
    (Close ⟨[], false⟩ (fun _ => true) true 0).1 = none ∧
    (Create (Close ⟨[], false⟩ (fun _ => true) true 0).2 ['a'] ['b'] =
       (some .closedDB, (Close ⟨[], false⟩ (fun _ => true) true 0).2) ∧
     Read (Close ⟨[], false⟩ (fun _ => true) true 0).2 ['a'] =
       ([], some .closedDB) ∧
     Update (Close ⟨[], false⟩ (fun _ => true) true 0).2 ['a'] ['b'] =
       (some .closedDB, (Close ⟨[], false⟩ (fun _ => true) true 0).2) ∧
     Delete (Close ⟨[], false⟩ (fun _ => true) true 0).2 ['a'] =
       (([], some .closedDB), (Close ⟨[], false⟩ (fun _ => true) true 0).2) ∧
     Close (Close ⟨[], false⟩ (fun _ => true) true 0).2 (fun _ => true) true 0 =
       (some (.dbe .closedDB), (Close ⟨[], false⟩ (fun _ => true) true 0).2)) :=
  ⟨by decide, C2_closed_store_inert ⟨[], false⟩ (fun _ => true) true 0
    (by decide) ['a'] ['b'] (fun _ => true) true 0⟩

/-- C3 (counterexample): the claimed reference decoder tolerates empty
lines, but the code does not: on the input `"\n"` (one empty line) the
source's `parseData` fails with the format error while the claimed
reference decoder succeeds with the empty mapping. -/
theorem C3_counterexample :
    parseData ['\n'] = ([], some DBError.wrongFormat) ∧
    refDecode ['\n'] = ([], none) ∧
    parseData ['\n'] ≠ refDecode ['\n'] := by
  decide

/-- C3 (amended): `Decode` equals the reference definition in which
EVERY line of the scanner output (empty lines included) must match the
line format — an empty line fails the whole decode with `FormatError`
and an empty mapping; later lines still overwrite earlier ones on a
repeated key, and empty input decodes to the empty mapping. -/
theorem C3_decode_reference (s : Str) : parseData s = refDecodeAmended s := by
  rw [parseData, refDecodeAmended,
    parseLines_eq_check (scanLines s) [] fun l hl => nl_not_mem_scanLines s l hl]

/-- C4 (counterexample): on a closed store, `Create` with the
format-invalid key `"$"` fails with `Closed`, not with
`InvalidFormat` — the closed check runs before the key-format check, so
the claim's "in every store state (including a store that has been
closed)" is wrong. -/
theorem C4_counterexample :
    keyFormatMatch ['$'] = false ∧
    (Create ⟨[], true⟩ ['$'] []).1 = some DBError.closedDB ∧
    (Create ⟨[], true⟩ ['$'] []).1 ≠ some DBError.wrongFormat := by
  decide

/-- C4 (amended): on a store that is NOT closed, `Create` with a key
containing any character outside `[A-Za-z0-9_-]` fails with
`InvalidFormat` for every value and every mapping contents, and leaves
the store unchanged; on a closed store the `Closed` error takes
precedence. -/
theorem C4_invalid_key_create (db : FileDB) (k v : Str)
    (hopen : db.closed = false) (hk : keyFormatMatch k = false) :
    Create db k v = (some .wrongFormat, db) := by
  simp [Create, isClosed, hopen, hk]

/-- C4 witness: the amended theorem at an open one-entry store and the
invalid key `"$"`. -/
theorem C4_invalid_key_create_witness :
    (FileDB.mk [(['a'], ['b'])] false).closed = false ∧
    keyFormatMatch ['$'] = false ∧
    Create ⟨[(['a'], ['b'])], false⟩ ['$'] ['x'] =
      (some .wrongFormat, ⟨[(['a'], ['b'])], false⟩) :=
  ⟨rfl, by decide, C4_invalid_key_create ⟨[(['a'], ['b'])], false⟩ ['$'] ['x']
    rfl (by decide)⟩

/-- C5: on an open store (whose keys all satisfy the key-format
invariant, as every reachable store does), `Create` on an
already-present key fails with `DuplicateKey` and leaves the whole
store — in particular the existing value — unchanged. -/
theorem C5_duplicate_create (db : FileDB) (k v u : Str)
    (hopen : db.closed = false)
    (hinv : ∀ p ∈ db.data, keyFormatMatch p.1 = true)
    (hmem : mget db.data k = some u) :
    Create db k v = (some .duplicatedKey, db) := by
  have hk : keyFormatMatch k = true :=
    hinv (k, u) (mget_some_mem db.data k u hmem)
  simp [Create, isClosed, hopen, hk, hmem]

/-- C5 witness: the duplicate-key theorem at a store holding
`{"a" ↦ "1"}` and a second `Create` of `"a"`. -/
theorem C5_duplicate_create_witness :
    (FileDB.mk [(['a'], ['1'])] false).closed = false ∧
    mget [(['a'], ['1'])] ['a'] = some ['1'] ∧
    Create ⟨[(['a'], ['1'])], false⟩ ['a'] ['2'] =
      (some .duplicatedKey, ⟨[(['a'], ['1'])], false⟩) :=
  ⟨rfl, by decide, C5_duplicate_create ⟨[(['a'], ['1'])], false⟩ ['a'] ['2']
    ['1'] rfl (by decide) (by decide)⟩

/-- C6: on an open store, for every format-valid key not already
present, `Create` succeeds and a subsequent `Read` of that key returns
exactly the created value. -/
theorem C6_create_then_read (db : FileDB) (k v : Str)
    (hopen : db.closed = false) (hk : keyFormatMatch k = true)
    (habs : mget db.data k = none) :
    (Create db k v).1 = none ∧ Read (Create db k v).2 k = (v, none) := by
  have hcr : Create db k v = (none, { db with data := mset db.data k v }) := by
    simp [Create, isClosed, hopen, hk, habs]
  rw [hcr]
  exact ⟨rfl, by simp [Read, isClosed, hopen, mget_mset_self]⟩

/-- C6 witness: create `"b" ↦ "2"` in a store holding `{"a" ↦ "1"}`
and read it back. -/
theorem C6_create_then_read_witness :
    (FileDB.mk [(['a'], ['1'])] false).closed = false ∧
    keyFormatMatch ['b'] = true ∧
    mget [(['a'], ['1'])] ['b'] = none ∧
    ((Create ⟨[(['a'], ['1'])], false⟩ ['b'] ['2']).1 = none ∧
     Read (Create ⟨[(['a'], ['1'])], false⟩ ['b'] ['2']).2 ['b'] =
       (['2'], none)) :=
  ⟨rfl, by decide, by decide,
    C6_create_then_read ⟨[(['a'], ['1'])], false⟩ ['b'] ['2'] rfl
      (by decide) (by decide)⟩

/-- C7: `Delete`'s full contract on an open store (with the structural
map invariant of pairwise-distinct keys): an absent key fails with
`NotFound` leaving the store unchanged; a present key is removed —
afterwards it is absent, every other key's association is untouched,
the store stays open — and the stored value is returned. -/
theorem C7_delete_contract (db : FileDB) (k : Str)
    (hopen : db.closed = false)
    (hnd : (db.data.map Prod.fst).Nodup) :
    (mget db.data k = none →
      Delete db k = (([], some .keyNotFound), db)) ∧
    ∀ v, mget db.data k = some v →
      (Delete db k).1 = (v, none) ∧
      mget (Delete db k).2.data k = none ∧
      (∀ k', k' ≠ k → mget (Delete db k).2.data k' = mget db.data k') ∧
      (Delete db k).2.closed = false := by
  constructor
  · intro habs
    simp [Delete, isClosed, hopen, habs]
  · intro v hv
    have hdel : Delete db k =
        ((v, none), { db with data := mdel db.data k }) := by
      simp [Delete, isClosed, hopen, hv]
    rw [hdel]
    exact ⟨rfl, mget_mdel_self db.data k hnd,
      fun k' hk' => mget_mdel_ne db.data k k' hk', hopen⟩

/-- C7 witness: the delete contract at the store `{"a" ↦ "1"}` and the
key `"a"`. -/
theorem C7_delete_contract_witness :
    (FileDB.mk [(['a'], ['1'])] false).closed = false ∧
    (([(['a'], ['1'])] : Map).map Prod.fst).Nodup ∧
    ((mget [(['a'], ['1'])] ['a'] = none →
       Delete ⟨[(['a'], ['1'])], false⟩ ['a'] =
         (([], some .keyNotFound), ⟨[(['a'], ['1'])], false⟩)) ∧
     ∀ v, mget [(['a'], ['1'])] ['a'] = some v →
       (Delete ⟨[(['a'], ['1'])], false⟩ ['a']).1 = (v, none) ∧
       mget (Delete ⟨[(['a'], ['1'])], false⟩ ['a']).2.data ['a'] = none ∧
       (∀ k', k' ≠ ['a'] →
         mget (Delete ⟨[(['a'], ['1'])], false⟩ ['a']).2.data k' =
           mget [(['a'], ['1'])] k') ∧
       (Delete ⟨[(['a'], ['1'])], false⟩ ['a']).2.closed = false) :=
  ⟨rfl, by decide, C7_delete_contract ⟨[(['a'], ['1'])], false⟩ ['a'] rfl
    (by decide)⟩

/-- C8 (counterexample): on a fresh open store whose writes all
succeed but whose final `file.Close()` fails, `Close` returns the raw
operating-system error unmapped — an error outside the spec's taxonomy
escapes, so "for a first Close only PersistFailure escapes" is wrong. -/
theorem C8_counterexample :
    (Close ⟨[], false⟩ (fun _ => true) false 7).1 = some (CloseErr.osErr 7) ∧
    ∀ e : DBError, some (CloseErr.osErr 7) ≠ some (CloseErr.dbe e) :=
  ⟨by decide, fun _ h => CloseErr.noConfusion (Option.some.inj h)⟩

/-- C8 (amended): on a not-yet-closed store, `Close` fails with
`PersistFailure` exactly when some entry write fails; when every write
succeeds, the result of releasing the file handle is returned to the
caller unmapped, so the error of a failing `file.Close()` escapes as
is (it is not translated into the taxonomy). -/
theorem C8_close_errors (db : FileDB) (w : Nat → Bool) (fcOk : Bool) (c : Nat)
    (hopen : db.closed = false) :
    (Close db w fcOk c).1 =
      if writesOk db.data w 0 then
        (if fcOk then none else some (.osErr c))
      else some (.dbe .savingToFile) := by
  simp only [Close, isClosed, hopen, Bool.false_eq_true, if_false]
  split
  · split <;> rfl
  · rfl

/-- C8 witness: the close-error characterization at a one-entry open
store whose first write fails: the result is `PersistFailure`. -/
theorem C8_close_errors_witness :
    (FileDB.mk [(['a'], ['1'])] false).closed = false ∧
    (Close ⟨[(['a'], ['1'])], false⟩ (fun _ => false) true 0).1 =
      (if writesOk [(['a'], ['1'])] (fun _ => false) 0 then
        (if true then none else some (.osErr 0))
      else some (.dbe .savingToFile)) :=
  ⟨rfl, C8_close_errors ⟨[(['a'], ['1'])], false⟩ (fun _ => false) true 0 rfl⟩

/-- C9: the key-format invariant. A store whose mapping has only
format-valid keys keeps that property across `Create`, `Update`,
`Delete` and `Close`, and the mapping `parseData` builds on success
has only format-valid keys (so the invariant is established at
construction and preserved by every operation). -/
theorem C9_key_format_invariant (db : FileDB) (k v v' : Str)
    (w : Nat → Bool) (fcOk : Bool) (c : Nat)
    (hinv : ∀ p ∈ db.data, keyFormatMatch p.1 = true) :
    (∀ p ∈ (Create db k v).2.data, keyFormatMatch p.1 = true) ∧
    (∀ p ∈ (Update db k v').2.data, keyFormatMatch p.1 = true) ∧
    (∀ p ∈ (Delete db k).2.data, keyFormatMatch p.1 = true) ∧
    (∀ p ∈ (Close db w fcOk c).2.data, keyFormatMatch p.1 = true) ∧
    (∀ s m, parseData s = (m, none) → ∀ p ∈ m, keyFormatMatch p.1 = true) := by
  refine ⟨?_, ?_, ?_, ?_, ?_⟩
  · intro p hp
    rcases Create_data_cases db k v with h | ⟨h, hk⟩
    · rw [h] at hp; exact hinv p hp
    · rw [h] at hp
      rcases mem_mset _ _ _ p hp with h1 | h2
      · rw [h1]; exact hk
      · exact hinv p h2
  · intro p hp
    rcases Update_data_cases db k v' with h | ⟨h, u, hu⟩
    · rw [h] at hp; exact hinv p hp
    · rw [h] at hp
      rcases mem_mset _ _ _ p hp with h1 | h2
      · rw [h1]
        exact hinv (k, u) (mget_some_mem db.data k u hu)
      · exact hinv p h2
  · intro p hp
    rcases Delete_data_cases db k with h | h
    · rw [h] at hp; exact hinv p hp
    · rw [h] at hp; exact hinv p (mem_mdel _ _ p hp)
  · intro p hp
    rw [Close_data db w fcOk c] at hp
    exact hinv p hp
  · intro s m hm
    exact parseLines_validKeys (scanLines s) [] m (by simp) hm

/-- C9 witness: the invariant-preservation theorem at the one-entry
store `{"a" ↦ "1"}`. -/
theorem C9_key_format_invariant_witness :
    (∀ p ∈ ([(['a'], ['1'])] : Map), keyFormatMatch p.1 = true) ∧
    ((∀ p ∈ (Create ⟨[(['a'], ['1'])], false⟩ ['b'] ['2']).2.data,
        keyFormatMatch p.1 = true) ∧
     (∀ p ∈ (Update ⟨[(['a'], ['1'])], false⟩ ['b'] ['3']).2.data,
        keyFormatMatch p.1 = true) ∧
     (∀ p ∈ (Delete ⟨[(['a'], ['1'])], false⟩ ['b']).2.data,
        keyFormatMatch p.1 = true) ∧
     (∀ p ∈ (Close ⟨[(['a'], ['1'])], false⟩ (fun _ => true) true 0).2.data,
        keyFormatMatch p.1 = true) ∧
     (∀ s m, parseData s = (m, none) →
        ∀ p ∈ m, keyFormatMatch p.1 = true)) :=
  ⟨by decide, C9_key_format_invariant ⟨[(['a'], ['1'])], false⟩ ['b'] ['2']
    ['3'] (fun _ => true) true 0 (by decide)⟩

/-- C10: `Close` sets the closed-flag before attempting any file
write, so whatever the outcome of the writes and of the final
file-handle release — in particular after a `Close` that fails with
`PersistFailure` — the store is permanently closed: its state has the
flag set, the mapping untouched, and every subsequent operation
(including a retried `Close`) fails with the `Closed` error. -/
theorem C10_close_irreversible (db : FileDB) (w w' : Nat → Bool)
    (fcOk fcOk' : Bool) (c c' : Nat) (k v : Str)
    (hopen : db.closed = false) :
    ((Close db w fcOk c).2).closed = true ∧
    ((Close db w fcOk c).2).data = db.data ∧
    Close (Close db w fcOk c).2 w' fcOk' c' =
      (some (.dbe .closedDB), (Close db w fcOk c).2) ∧
    (Create (Close db w fcOk c).2 k v).1 = some .closedDB ∧
    Read (Close db w fcOk c).2 k = ([], some .closedDB) ∧
    (Update (Close db w fcOk c).2 k v).1 = some .closedDB ∧
    (Delete (Close db w fcOk c).2 k).1 = ([], some .closedDB) := by
  have hst := Close_state db w fcOk c hopen
  have hc : ((Close db w fcOk c).2).closed = true := by rw [hst]
  refine ⟨hc, by rw [hst], Close_of_closed _ w' fcOk' c' hc, ?_,
    Read_of_closed _ k hc, ?_, ?_⟩
  · rw [Create_of_closed _ k v hc]
  · rw [Update_of_closed _ k v hc]
  · rw [Delete_of_closed _ k hc]

/-- C10 witness: a one-entry store whose every write fails — the first
`Close` fails with `PersistFailure` — is nonetheless permanently
closed afterwards. -/
theorem C10_close_irreversible_witness :
    (FileDB.mk [(['a'], ['1'])] false).closed = false ∧
    (Close ⟨[(['a'], ['1'])], false⟩ (fun _ => false) true 0).1 =
      some (CloseErr.dbe DBError.savingToFile) ∧
    (((Close ⟨[(['a'], ['1'])], false⟩ (fun _ => false) true 0).2).closed =
       true ∧
     ((Close ⟨[(['a'], ['1'])], false⟩ (fun _ => false) true 0).2).data =
       [(['a'], ['1'])] ∧
     Close (Close ⟨[(['a'], ['1'])], false⟩ (fun _ => false) true 0).2
         (fun _ => true) true 0 =
       (some (.dbe .closedDB),
        (Close ⟨[(['a'], ['1'])], false⟩ (fun _ => false) true 0).2) ∧
     (Create (Close ⟨[(['a'], ['1'])], false⟩ (fun _ => false) true 0).2
         ['b'] ['2']).1 = some .closedDB ∧
     Read (Close ⟨[(['a'], ['1'])], false⟩ (fun _ => false) true 0).2 ['b'] =
       ([], some .closedDB) ∧
     (Update (Close ⟨[(['a'], ['1'])], false⟩ (fun _ => false) true 0).2
         ['b'] ['2']).1 = some .closedDB ∧
     (Delete (Close ⟨[(['a'], ['1'])], false⟩ (fun _ => false) true 0).2
         ['b']).1 = ([], some .closedDB)) :=
  ⟨rfl, by decide, C10_close_irreversible ⟨[(['a'], ['1'])], false⟩
    (fun _ => false) (fun _ => true) true true 0 0 ['b'] ['2'] rfl⟩

end DBSpec
